import Mathlib

/-!
Verification development for the machinomy micropayment library.

The repository's visible source is the facade `src/lib/Machinomy.ts`; the
channel manager, negotiation client and payment serde it delegates to are
collaborators whose code is not present.  The facade methods (`buy`,
`payment`, `open`, `nextPayment`, the gateway guard) are embedded directly
from `Machinomy.ts`; the channel-manager operations and the payment
serialization are modelled from the specification, as flagged in each
doc comment.

Monetary values (BigNumber amounts in Wei) are embedded as `Int`.
-/

namespace Machinomy

/-- Channel lifecycle states, from the spec: `Open → Settling → Settled`. -/
inductive ChannelState
  | Open
  | Settling
  | Settled
deriving DecidableEq, Repr

/-- A payment channel: escrowed funds between one sender and one receiver.
Attributes per the spec data model: channelId, sender, receiver, total
deposited value, cumulative spent value, lifecycle state, optional
settlement-period deadline. -/
structure PaymentChannel where
  channelId : String
  sender : String
  receiver : String
  deposited : Int
  spent : Int
  state : ChannelState
  settlementDeadline : Option Nat
deriving DecidableEq, Repr

/-- A signed payment voucher.  Attributes per the spec data model:
channelId, sender, receiver, channelValue (total deposit backing it),
cumulative value owed, application metadata, signature.  Signing itself is
cryptography outside the embedding; the signature is an opaque string. -/
structure Payment where
  channelId : String
  sender : String
  receiver : String
  channelValue : Int
  value : Int
  meta : String
  signature : String
deriving DecidableEq, Repr

/-- Error taxonomy from the spec (the subset the embedded operations can
raise; chain and transport failures are outside the embedding). -/
inductive Err
  | InvalidParameters
  | ChannelNotFound
  | InsufficientChannelValue
  | StalePayment
  | MissingGateway
  | PaymentRejected
deriving DecidableEq, Repr

/-- Channel-manager state: the tracked channels plus the payments minted so
far (minted-but-uncommitted payments are recorded so that `spendChannel`
commits previously-minted payments, as the spec describes). -/
structure CMState where
  channels : List PaymentChannel
  minted : List Payment
deriving DecidableEq, Repr

def CMState.empty : CMState := ⟨[], []⟩

/-- Look a channel up by its id (the primary key). -/
def lookupChannel (s : CMState) (cid : String) : Option PaymentChannel :=
  s.channels.find? (fun ch => ch.channelId == cid)

/-- Update the channel with the given id by `f`; every use of `f` below
preserves `channelId`. -/
def updateChannel (l : List PaymentChannel) (cid : String)
    (f : PaymentChannel → PaymentChannel) : List PaymentChannel :=
  l.map (fun c => if c.channelId = cid then f c else c)

/-- Modelled from the spec: `openChannel(sender, receiver, initialSpent,
value, channelId?)` of the channel manager, whose code is not under `src/`.
It creates a new `Open` channel; it fails with `InvalidParameters` if
`value ≤ 0` (spec §4.1), and — since the manager is the single authority
that fails fast on invariant violations (spec §7) and `0 ≤ spent ≤
deposited` must hold at all times (spec §3) — likewise on an
`initialSpent` outside `[0, value]` or on a channelId that is already
tracked (channelId is "used as the primary key everywhere").  Channel-id
derivation is deterministic but external; the id is an explicit argument.
On-chain submission is outside the embedding. -/
def openChannel (s : CMState) (sender receiver : String)
    (initialSpent value : Int) (cid : String) :
    Except Err (PaymentChannel × CMState) :=
  if value ≤ 0 then .error .InvalidParameters
  else if initialSpent < 0 ∨ value < initialSpent then .error .InvalidParameters
  else if (lookupChannel s cid).isSome then .error .InvalidParameters
  else
    let ch : PaymentChannel :=
      ⟨cid, sender, receiver, value, initialSpent, .Open, none⟩
    .ok (ch, { s with channels := s.channels ++ [ch] })

/-- Modelled from the spec: `deposit(channelId, value)` increases
`deposited`; only legal while `Open`.  A non-positive top-up is malformed
input (`InvalidParameters`). -/
def deposit (s : CMState) (cid : String) (value : Int) : Except Err CMState :=
  if value ≤ 0 then .error .InvalidParameters
  else
    match lookupChannel s cid with
    | none => .error .ChannelNotFound
    | some ch =>
      if ch.state ≠ .Open then .error .InvalidParameters
      else .ok { s with
        channels := updateChannel s.channels cid
          (fun c => { c with deposited := c.deposited + value }) }

/-- Modelled from the spec: `nextPayment(channelId, priceIncrement, meta)`
mints a new `Payment` whose cumulative value equals the channel's last
committed spent value plus the increment, without mutating recorded
channel state; fails with `ChannelNotFound` for an unknown id and with
`InsufficientChannelValue` if the increment would exceed `deposited`.
The sender's signing is external; the signature is a placeholder. -/
def nextPayment (s : CMState) (cid : String) (inc : Int) (meta : String) :
    Except Err (Payment × CMState) :=
  match lookupChannel s cid with
  | none => .error .ChannelNotFound
  | some ch =>
    if ch.deposited < ch.spent + inc then .error .InsufficientChannelValue
    else
      let p : Payment :=
        ⟨cid, ch.sender, ch.receiver, ch.deposited, ch.spent + inc, meta, "sig"⟩
      .ok (p, { s with minted := s.minted ++ [p] })

/-- Modelled from the spec: `spendChannel(payment)` commits a
previously-minted payment: validates `payment.value > channel.spent`, then
advances `channel.spent` to `payment.value`; fails with `StalePayment`
when `payment.value ≤ spent`. -/
def spendChannel (s : CMState) (p : Payment) : Except Err CMState :=
  match lookupChannel s p.channelId with
  | none => .error .ChannelNotFound
  | some ch =>
    if p.value ≤ ch.spent then .error .StalePayment
    else .ok { s with
      channels := updateChannel s.channels p.channelId
        (fun c => { c with spent := p.value }) }

/-- Modelled from the spec: `closeChannel(channelId)` transitions toward
settlement.  A sender-initiated close with no counter-claim settles
directly to `Settled`; a receiver-initiated (or disputed) close starts
`Settling` with a dispute deadline.  No transition leaves `Settled`.
Which branch applies, and the deadline, are decided outside the manager's
recorded state, so they are explicit arguments here. -/
def closeChannel (s : CMState) (cid : String) (byReceiver : Bool)
    (deadline : Nat) : Except Err CMState :=
  match lookupChannel s cid with
  | none => .error .ChannelNotFound
  | some ch =>
    if ch.state = .Settled then .error .InvalidParameters
    else if byReceiver then
      .ok { s with
        channels := updateChannel s.channels cid
          (fun c => { c with state := .Settling,
                             settlementDeadline := some deadline }) }
    else
      .ok { s with
        channels := updateChannel s.channels cid
          (fun c => { c with state := .Settled }) }

/-- Does this channel qualify for `requireOpenChannel(sender, receiver,
price)`: an existing `Open` channel between the pair whose
`deposited - spent ≥ price` (spec §4.1). -/
def qualifies (sender receiver : String) (price : Int)
    (ch : PaymentChannel) : Bool :=
  ch.sender == sender && ch.receiver == receiver &&
    decide (ch.state = ChannelState.Open) &&
    decide (price ≤ ch.deposited - ch.spent)

/-- Modelled from the spec: `requireOpenChannel(sender, receiver, price)`
returns an existing qualifying channel, or opens a new one sized as the
policy multiple ×10 of the price when none qualifies.  The deterministic
fresh channel id is derived externally and passed explicitly. -/
def requireOpenChannel (s : CMState) (sender receiver : String)
    (price : Int) (freshCid : String) :
    Except Err (PaymentChannel × CMState) :=
  match s.channels.find? (qualifies sender receiver price) with
  | some ch => .ok (ch, s)
  | none => openChannel s sender receiver 0 (price * 10) freshCid

/-- The state a `requireOpenChannel` call leaves behind (the input state
when the call fails). -/
def requireOpenChannelState (s : CMState) (sender receiver : String)
    (price : Int) (freshCid : String) : CMState :=
  match requireOpenChannel s sender receiver price freshCid with
  | .ok (_, s') => s'
  | .error _ => s

/-! ### Operation traces

A trace of channel-manager operations, starting from the empty state.  A
failing operation surfaces its error to the caller and leaves the state as
it was; `spendChannel` commits previously-minted payments, so a spend of a
payment that was never minted does not act on the state. -/

/-- One channel-manager operation, as invokable by callers. -/
inductive Op
  | openOp (sender receiver : String) (initialSpent value : Int) (cid : String)
  | depositOp (cid : String) (value : Int)
  | mintOp (cid : String) (inc : Int) (meta : String)
  | spendOp (p : Payment)
  | closeOp (cid : String) (byReceiver : Bool) (deadline : Nat)
deriving DecidableEq, Repr

/-- Resulting state of a fallible operation: on failure the error surfaces
to the caller and the state is unchanged (no partial mutation on failure). -/
def applyExcept (s : CMState) : Except Err CMState → CMState
  | .ok s' => s'
  | .error _ => s

/-- Apply one operation to the channel-manager state. -/
def step (s : CMState) : Op → CMState
  | .openOp a b i v c => applyExcept s ((openChannel s a b i v c).map (·.2))
  | .depositOp c v => applyExcept s (deposit s c v)
  | .mintOp c i m => applyExcept s ((nextPayment s c i m).map (·.2))
  | .spendOp p => if p ∈ s.minted then applyExcept s (spendChannel s p) else s
  | .closeOp c b d => applyExcept s (closeChannel s c b d)

/-- Run a trace of operations from the empty state. -/
def runOps (ops : List Op) : CMState := ops.foldl step CMState.empty

/-! ### Payment serialization

Modelled from the spec: a stable encoding of the Payment entity
(channelId, sender, receiver, channelValue, value, meta, signature) used
over the wire and in persistence; the code of the serde is not under
`src/`.  The numeric fields travel as decimal strings, the rest verbatim. -/

/-- The wire/persistence form of a `Payment`: every field a string. -/
structure SerializedPayment where
  channelId : String
  sender : String
  receiver : String
  channelValue : String
  value : String
  meta : String
  signature : String
deriving DecidableEq, Repr

/-- The character for a decimal digit. -/
def digitChar (d : Nat) : Char := Char.ofNat (48 + d)

/-- Decode one decimal digit character. -/
def charDigit (c : Char) : Option Nat :=
  if 48 ≤ c.toNat ∧ c.toNat ≤ 57 then some (c.toNat - 48) else none

/-- Decode a list of decimal digit characters (most significant first). -/
def decDigits : List Char → Option (List Nat)
  | [] => some []
  | c :: cs =>
    match charDigit c, decDigits cs with
    | some d, some ds => some (d :: ds)
    | _, _ => none

/-- Render a natural number in decimal. -/
def natToDec (n : Nat) : String :=
  if n = 0 then "0"
  else String.mk (((Nat.digits 10 n).map digitChar).reverse)

/-- Parse a nonempty string of decimal digit characters. -/
def listToNat (cs : List Char) : Option Nat :=
  if cs = [] then none
  else (decDigits cs).map (fun ds => Nat.ofDigits 10 ds.reverse)

/-- Render an integer in decimal, with a leading minus sign if negative. -/
def intToDec (i : Int) : String :=
  if i < 0 then "-" ++ natToDec i.natAbs else natToDec i.natAbs

/-- Parse a list of characters as a decimal integer with optional leading
minus sign. -/
def listToInt (cs : List Char) : Option Int :=
  match cs with
  | [] => none
  | c :: rest =>
    if c = '-' then (listToNat rest).map (fun n : Nat => -(n : Int))
    else (listToNat (c :: rest)).map (fun n : Nat => (n : Int))

/-- Parse a decimal integer with optional leading minus sign. -/
def decToInt (s : String) : Option Int :=
  listToInt s.data

namespace PaymentSerde

/-- Modelled from the spec: serialize a `Payment` for wire/persistence. -/
def serialize (p : Payment) : SerializedPayment :=
  ⟨p.channelId, p.sender, p.receiver, intToDec p.channelValue,
    intToDec p.value, p.meta, p.signature⟩

/-- Modelled from the spec: deserialize a wire-form payment, validating the
numeric fields. -/
def deserialize (sp : SerializedPayment) : Option Payment :=
  match decToInt sp.channelValue, decToInt sp.value with
  | some cv, some v =>
    some ⟨sp.channelId, sp.sender, sp.receiver, cv, v, sp.meta, sp.signature⟩
  | _, _ => none

end PaymentSerde

/-! ### The facade, embedded from `src/lib/Machinomy.ts`

The facade holds the Ethereum account that sends the money and delegates
to the channel manager and the negotiation client.  The client's
`doPayment` is transport to the payee's gateway, so it enters the
embedding as an oracle argument; the channel-manager state is threaded
explicitly (in the source it lives behind the registry and is mutated in
place, so state reached before a thrown error persists). -/

/-- Options of `Machinomy.buy` used by the embedded methods: receiver,
price, gateway, meta, purchaseMeta.  `gateway` is absent when the field is
missing (`undefined`); the source's `!options.gateway` guard also treats
the empty string as absent. -/
structure BuyOptions where
  receiver : String
  price : Int
  gateway : Option String
  meta : Option String
  purchaseMeta : Option String
deriving DecidableEq, Repr

/-- Whether the options carry a gateway, in the sense of the source's
`!options.gateway` guard (absent and empty both count as missing). -/
def hasGateway (o : BuyOptions) : Bool :=
  match o.gateway with
  | none => false
  | some g => g != ""

/-- Result of `Machinomy.buy`: the delivery token and the channel id. -/
structure BuyResult where
  token : String
  channelId : String
deriving DecidableEq, Repr

/-- The facade object: the account address that sends the money, fixed at
construction. -/
structure Facade where
  account : String
deriving DecidableEq, Repr

/-- `Machinomy.nextPayment` (private, `Machinomy.ts:183`): requires an open
channel between the facade's account and the receiver for the price, then
mints the next payment on it for the price, with `options.meta || ''` as
metadata.  Returns the minted payment and the state left behind. -/
def Facade.mintPayment (m : Facade) (s : CMState) (o : BuyOptions)
    (freshCid : String) : Except Err Payment × CMState :=
  match requireOpenChannel s m.account o.receiver o.price freshCid with
  | .error e => (.error e, s)
  | .ok (ch, s1) =>
    match nextPayment s1 ch.channelId o.price (o.meta.getD "") with
    | .error e => (.error e, s1)
    | .ok (p, s2) => (.ok p, s2)

/-- `Machinomy.buy` (`Machinomy.ts:55`): rejects a missing gateway, then
mints the next payment, delivers it to the gateway via the client's
`doPayment`, commits the spend, and returns the token with the payment's
channel id.  `doPay` is the negotiation client's `doPayment` oracle. -/
def Facade.buy (m : Facade) (s : CMState) (o : BuyOptions)
    (doPay : Payment → String → Option String → Except Err String)
    (freshCid : String) : Except Err BuyResult × CMState :=
  match o.gateway with
  | none => (.error .MissingGateway, s)
  | some g =>
    if g = "" then (.error .MissingGateway, s)
    else
      match m.mintPayment s o freshCid with
      | (.error e, s1) => (.error e, s1)
      | (.ok p, s1) =>
        match doPay p g o.purchaseMeta with
        | .error e => (.error e, s1)
        | .ok tok =>
          match spendChannel s1 p with
          | .error e => (.error e, s1)
          | .ok s2 => (.ok ⟨tok, p.channelId⟩, s2)

/-- `Machinomy.payment` (`Machinomy.ts:69`): mints the next payment and
immediately commits it via `spendChannel` — no gateway check and no
delivery — returning the serialized payment. -/
def Facade.payment (m : Facade) (s : CMState) (o : BuyOptions)
    (freshCid : String) : Except Err SerializedPayment × CMState :=
  match m.mintPayment s o freshCid with
  | (.error e, s1) => (.error e, s1)
  | (.ok p, s1) =>
    match spendChannel s1 p with
    | .error e => (.error e, s1)
    | .ok s2 => (.ok (PaymentSerde.serialize p), s2)

/-- `Machinomy.open` (`Machinomy.ts:111`): opens a channel to the receiver
with the given value, calling the channel manager's `openChannel` with the
facade's own account as sender and `new BigNumber(0)` as initial spent. -/
def Facade.openChannelF (m : Facade) (s : CMState) (receiver : String)
    (value : Int) (cid : String) : Except Err (PaymentChannel × CMState) :=
  openChannel s m.account receiver 0 value cid

/-- Per-channel `spent` is carried over unchanged from `s` to `s'` for
every channel tracked in `s`. -/
def spentPreserved (s s' : CMState) : Prop :=
  ∀ ch ∈ s.channels, ∃ ch' ∈ s'.channels,
    ch'.channelId = ch.channelId ∧ ch'.spent = ch.spent

/-- The spec's channel invariants, as a property of the channel-manager
state: every tracked channel satisfies `0 ≤ spent ≤ deposited`; every
minted payment fits under the deposit of its channel; every minted payment
refers to a tracked channel; and channel ids are unique (channelId is the
primary key). -/
def Inv (s : CMState) : Prop :=
  (∀ ch ∈ s.channels, 0 ≤ ch.spent ∧ ch.spent ≤ ch.deposited)
  ∧ (∀ p ∈ s.minted, ∀ ch ∈ s.channels,
      p.channelId = ch.channelId → p.value ≤ ch.deposited)
  ∧ (∀ p ∈ s.minted, ∃ ch ∈ s.channels, ch.channelId = p.channelId)
  ∧ s.channels.Pairwise (fun a b => a.channelId ≠ b.channelId)

/-! ## Helper lemmas -/

theorem find?_updateChannel (l : List PaymentChannel) (cid : String)
    (f : PaymentChannel → PaymentChannel)
    (hf : ∀ c, (f c).channelId = c.channelId) :
    (updateChannel l cid f).find? (fun c => c.channelId == cid)
      = (l.find? (fun c => c.channelId == cid)).map f := by
  induction l with
  | nil => rfl
  | cons c l ih =>
    simp only [updateChannel, List.map_cons] at ih ⊢
    by_cases hb : c.channelId = cid
    · rw [if_pos hb]
      rw [List.find?_cons_of_pos _ (by simp [hf, hb]),
        List.find?_cons_of_pos _ (by simp [hb])]
      simp
    · rw [if_neg hb]
      rw [List.find?_cons_of_neg _ (by simp [hb]),
        List.find?_cons_of_neg _ (by simp [hb])]
      exact ih

theorem lookupChannel_mem {s : CMState} {cid : String} {ch : PaymentChannel}
    (h : lookupChannel s cid = some ch) :
    ch ∈ s.channels ∧ ch.channelId = cid := by
  refine ⟨List.mem_of_find?_eq_some h, ?_⟩
  have := List.find?_some h
  simpa using this

theorem spendChannel_ok_lookup {s s' : CMState} {p : Payment}
    {ch : PaymentChannel} (h : spendChannel s p = .ok s')
    (hc : lookupChannel s p.channelId = some ch) :
    lookupChannel s' p.channelId = some { ch with spent := p.value }
      ∧ ch.spent < p.value ∧ s'.minted = s.minted := by
  have h' : spendChannel s p
      = if p.value ≤ ch.spent then Except.error Err.StalePayment
        else Except.ok { s with
          channels :=
            updateChannel s.channels p.channelId
              (fun c => { c with spent := p.value }) } := by
    unfold spendChannel
    rw [hc]
  rw [h] at h'
  replace h' := h'.symm
  by_cases hle : p.value ≤ ch.spent
  · rw [if_pos hle] at h'
    exact absurd h' (by simp)
  · rw [if_neg hle] at h'
    have hs' : s' = { s with
        channels := updateChannel s.channels p.channelId
          (fun c => { c with spent := p.value }) } := by
      simpa using h'.symm
    subst hs'
    refine ⟨?_, by omega, rfl⟩
    show (updateChannel s.channels p.channelId
      (fun c => { c with spent := p.value })).find? _ = _
    rw [find?_updateChannel s.channels p.channelId
      (fun c => { c with spent := p.value }) (fun c => rfl)]
    rw [show (s.channels.find? fun c => c.channelId == p.channelId) = some ch
      from hc]
    rfl

theorem spendChannel_eq {s : CMState} {p : Payment} {ch : PaymentChannel}
    (hc : lookupChannel s p.channelId = some ch) :
    spendChannel s p
      = if p.value ≤ ch.spent then Except.error Err.StalePayment
        else Except.ok { s with
          channels :=
            updateChannel s.channels p.channelId
              (fun c => { c with spent := p.value }) } := by
  unfold spendChannel
  rw [hc]

theorem nextPayment_eq {s : CMState} {cid : String} {ch : PaymentChannel}
    (hch : lookupChannel s cid = some ch) (inc : Int) (meta : String) :
    nextPayment s cid inc meta
      = if ch.deposited < ch.spent + inc
        then Except.error Err.InsufficientChannelValue
        else Except.ok
          (⟨cid, ch.sender, ch.receiver, ch.deposited, ch.spent + inc, meta, "sig"⟩,
            { s with
              minted := s.minted
                ++ [⟨cid, ch.sender, ch.receiver, ch.deposited,
                      ch.spent + inc, meta, "sig"⟩] }) := by
  unfold nextPayment
  rw [hch]

theorem openChannel_cases (s : CMState) (a b : String) (i v : Int)
    (cid : String) :
    (∃ e, openChannel s a b i v cid = .error e)
    ∨ (0 < v ∧ 0 ≤ i ∧ i ≤ v ∧ lookupChannel s cid = none
        ∧ openChannel s a b i v cid
          = .ok (⟨cid, a, b, v, i, .Open, none⟩,
              { s with channels := s.channels ++ [⟨cid, a, b, v, i, .Open, none⟩] })) := by
  unfold openChannel
  by_cases h1 : v ≤ 0
  · rw [if_pos h1]; exact .inl ⟨_, rfl⟩
  · rw [if_neg h1]
    by_cases h2 : i < 0 ∨ v < i
    · rw [if_pos h2]; exact .inl ⟨_, rfl⟩
    · rw [if_neg h2]
      by_cases h3 : (lookupChannel s cid).isSome = true
      · rw [if_pos h3]; exact .inl ⟨_, rfl⟩
      · rw [if_neg h3]
        refine .inr ⟨by omega, by omega, by omega, ?_, rfl⟩
        rcases hl : lookupChannel s cid with _ | c
        · rfl
        · exact absurd (by rw [hl]; rfl) h3

theorem qualifies_newly_opened (a b : String) (pr : Int) (cid : String)
    (hv : 0 < pr * 10) :
    qualifies a b pr ⟨cid, a, b, pr * 10, 0, .Open, none⟩ = true := by
  have h : pr ≤ pr * 10 := by omega
  simp [qualifies, h]

theorem requireOpenChannelState_cases (s : CMState) (a b : String)
    (pr : Int) (cid : String) :
    requireOpenChannelState s a b pr cid = s
    ∨ ∃ ch, qualifies a b pr ch = true
        ∧ requireOpenChannelState s a b pr cid
          = { s with channels := s.channels ++ [ch] } := by
  rcases hfind : s.channels.find? (qualifies a b pr) with _ | ch
  · have hroc : requireOpenChannel s a b pr cid
        = openChannel s a b 0 (pr * 10) cid := by
      unfold requireOpenChannel
      rw [hfind]
    rcases openChannel_cases s a b 0 (pr * 10) cid with ⟨e, he⟩ | ⟨hv, -, -, -, hok⟩
    · left
      unfold requireOpenChannelState
      rw [hroc, he]
    · right
      refine ⟨⟨cid, a, b, pr * 10, 0, .Open, none⟩,
        qualifies_newly_opened a b pr cid hv, ?_⟩
      unfold requireOpenChannelState
      rw [hroc, hok]
  · have hroc : requireOpenChannel s a b pr cid = .ok (ch, s) := by
      unfold requireOpenChannel
      rw [hfind]
    left
    unfold requireOpenChannelState
    rw [hroc]

theorem requireOpenChannelState_length (s : CMState) (a b : String)
    (pr : Int) (cid : String) :
    (requireOpenChannelState s a b pr cid).channels.length
      ≤ s.channels.length + 1 := by
  rcases requireOpenChannelState_cases s a b pr cid with h | ⟨ch, -, h⟩ <;>
    rw [h] <;> simp

theorem requireOpenChannelState_of_qualifying (s : CMState) (a b : String)
    (pr : Int) (cid : String)
    (h : ∃ ch ∈ s.channels, qualifies a b pr ch = true) :
    requireOpenChannelState s a b pr cid = s := by
  have hsome : (s.channels.find? (qualifies a b pr)).isSome := by
    rw [List.find?_isSome]
    obtain ⟨ch, hm, hq⟩ := h
    exact ⟨ch, hm, hq⟩
  obtain ⟨ch, hch⟩ := Option.isSome_iff_exists.mp hsome
  unfold requireOpenChannelState requireOpenChannel
  rw [hch]

theorem requireOpenChannel_res_cases (s : CMState) (a b : String)
    (pr : Int) (cid : String) :
    (∃ e, requireOpenChannel s a b pr cid = .error e)
    ∨ (∃ ch, requireOpenChannel s a b pr cid = .ok (ch, s))
    ∨ (∃ ch, requireOpenChannel s a b pr cid
        = .ok (ch, { s with channels := s.channels ++ [ch] })) := by
  rcases hfind : s.channels.find? (qualifies a b pr) with _ | ch
  · have hroc : requireOpenChannel s a b pr cid
        = openChannel s a b 0 (pr * 10) cid := by
      unfold requireOpenChannel
      rw [hfind]
    rcases openChannel_cases s a b 0 (pr * 10) cid with ⟨e, he⟩ | ⟨-, -, -, -, hok⟩
    · exact .inl ⟨e, by rw [hroc, he]⟩
    · exact .inr (.inr ⟨_, by rw [hroc, hok]⟩)
  · refine .inr (.inl ⟨ch, ?_⟩)
    unfold requireOpenChannel
    rw [hfind]

theorem nextPayment_ok_channels {s : CMState} {cid : String} {inc : Int}
    {meta : String} {p : Payment} {s' : CMState}
    (h : nextPayment s cid inc meta = .ok (p, s')) :
    s'.channels = s.channels := by
  rcases hch : lookupChannel s cid with _ | ch
  · have : nextPayment s cid inc meta = .error .ChannelNotFound := by
      unfold nextPayment
      rw [hch]
    rw [this] at h
    exact absurd h (by simp)
  · have he := nextPayment_eq hch inc meta
    rw [he] at h
    by_cases hd : ch.deposited < ch.spent + inc
    · rw [if_pos hd] at h
      exact absurd h (by simp)
    · rw [if_neg hd] at h
      simp only [Except.ok.injEq, Prod.mk.injEq] at h
      obtain ⟨-, hs⟩ := h
      rw [← hs]

theorem spentPreserved_of_channels_eq {s s' : CMState}
    (h : s'.channels = s.channels) : spentPreserved s s' :=
  fun c hc => ⟨c, by rw [h]; exact hc, rfl, rfl⟩

theorem spentPreserved_of_channels_append {s s' : CMState}
    {ch : PaymentChannel} (h : s'.channels = s.channels ++ [ch]) :
    spentPreserved s s' :=
  fun c hc => ⟨c, by rw [h]; exact List.mem_append_left _ hc, rfl, rfl⟩

theorem mintPayment_eq_error {m : Facade} {s : CMState} {o : BuyOptions}
    {cid : String} {e : Err}
    (h : requireOpenChannel s m.account o.receiver o.price cid = .error e) :
    m.mintPayment s o cid = (.error e, s) := by
  unfold Facade.mintPayment
  rw [h]

theorem mintPayment_eq_ok {m : Facade} {s : CMState} {o : BuyOptions}
    {cid : String} {ch : PaymentChannel} {s1 : CMState}
    (h : requireOpenChannel s m.account o.receiver o.price cid = .ok (ch, s1)) :
    m.mintPayment s o cid
      = match nextPayment s1 ch.channelId o.price (o.meta.getD "") with
        | .error e => (.error e, s1)
        | .ok (p, s2) => (.ok p, s2) := by
  unfold Facade.mintPayment
  rw [h]

theorem mintPayment_spentPreserved (m : Facade) (s : CMState)
    (o : BuyOptions) (cid : String) :
    spentPreserved s (m.mintPayment s o cid).2 := by
  rcases requireOpenChannel_res_cases s m.account o.receiver o.price cid with
    ⟨e, he⟩ | ⟨ch, he⟩ | ⟨ch, he⟩
  · rw [mintPayment_eq_error he]
    exact spentPreserved_of_channels_eq rfl
  · rw [mintPayment_eq_ok he]
    rcases hnp : nextPayment s ch.channelId o.price (o.meta.getD "") with
      e2 | ⟨p, s2⟩
    · exact spentPreserved_of_channels_eq rfl
    · exact spentPreserved_of_channels_eq (nextPayment_ok_channels hnp)
  · rw [mintPayment_eq_ok he]
    rcases hnp : nextPayment { s with channels := s.channels ++ [ch] }
        ch.channelId o.price (o.meta.getD "") with e2 | ⟨p, s2⟩
    · exact spentPreserved_of_channels_append rfl
    · exact spentPreserved_of_channels_append (nextPayment_ok_channels hnp)

theorem buy_eq {m : Facade} {s : CMState} {o : BuyOptions}
    {doPay : Payment → String → Option String → Except Err String}
    {cid g : String} (hg : o.gateway = some g) (hne : g ≠ "") :
    m.buy s o doPay cid
      = match m.mintPayment s o cid with
        | (.error e, s1) => (.error e, s1)
        | (.ok p, s1) =>
          match doPay p g o.purchaseMeta with
          | .error e => (.error e, s1)
          | .ok tok =>
            match spendChannel s1 p with
            | .error e => (.error e, s1)
            | .ok s2 => (.ok ⟨tok, p.channelId⟩, s2) := by
  unfold Facade.buy
  rw [hg]
  exact if_neg hne

theorem buy_eq_mint_error {m : Facade} {s : CMState} {o : BuyOptions}
    {doPay : Payment → String → Option String → Except Err String}
    {cid g : String} {e : Err} {s1 : CMState}
    (hg : o.gateway = some g) (hne : g ≠ "")
    (hmint : m.mintPayment s o cid = (.error e, s1)) :
    m.buy s o doPay cid = (.error e, s1) := by
  rw [buy_eq hg hne, hmint]

theorem buy_eq_mint_ok {m : Facade} {s : CMState} {o : BuyOptions}
    {doPay : Payment → String → Option String → Except Err String}
    {cid g : String} {p : Payment} {s1 : CMState}
    (hg : o.gateway = some g) (hne : g ≠ "")
    (hmint : m.mintPayment s o cid = (.ok p, s1)) :
    m.buy s o doPay cid
      = match doPay p g o.purchaseMeta with
        | .error e => (.error e, s1)
        | .ok tok =>
          match spendChannel s1 p with
          | .error e => (.error e, s1)
          | .ok s2 => (.ok ⟨tok, p.channelId⟩, s2) := by
  rw [buy_eq hg hne, hmint]

theorem payment_eq_mint_ok {m : Facade} {s : CMState} {o : BuyOptions}
    {cid : String} {p : Payment} {s1 : CMState}
    (hmint : m.mintPayment s o cid = (.ok p, s1)) :
    m.payment s o cid
      = match spendChannel s1 p with
        | .error e => (.error e, s1)
        | .ok s2 => (.ok (PaymentSerde.serialize p), s2) := by
  unfold Facade.payment
  rw [hmint]

/-! ## Equation lemmas for the remaining channel-manager branches -/

theorem spendChannel_eq_none {s : CMState} {p : Payment}
    (hc : lookupChannel s p.channelId = none) :
    spendChannel s p = .error .ChannelNotFound := by
  unfold spendChannel
  rw [hc]

theorem nextPayment_eq_none {s : CMState} {cid : String}
    (hc : lookupChannel s cid = none) (inc : Int) (meta : String) :
    nextPayment s cid inc meta = .error .ChannelNotFound := by
  unfold nextPayment
  rw [hc]

theorem deposit_eq_nonpos {s : CMState} {cid : String} {v : Int}
    (hv : v ≤ 0) : deposit s cid v = .error .InvalidParameters := by
  unfold deposit
  rw [if_pos hv]

theorem deposit_eq_none {s : CMState} {cid : String} {v : Int}
    (hv : ¬ v ≤ 0) (hc : lookupChannel s cid = none) :
    deposit s cid v = .error .ChannelNotFound := by
  unfold deposit
  rw [if_neg hv, hc]

theorem deposit_eq_some {s : CMState} {cid : String} {ch : PaymentChannel}
    {v : Int} (hv : ¬ v ≤ 0) (hc : lookupChannel s cid = some ch) :
    deposit s cid v
      = if ch.state ≠ .Open then .error .InvalidParameters
        else .ok { s with
          channels :=
            updateChannel s.channels cid
              (fun c => { c with deposited := c.deposited + v }) } := by
  unfold deposit
  rw [if_neg hv, hc]

theorem closeChannel_eq_none {s : CMState} {cid : String}
    (hc : lookupChannel s cid = none) (byReceiver : Bool) (deadline : Nat) :
    closeChannel s cid byReceiver deadline = .error .ChannelNotFound := by
  unfold closeChannel
  rw [hc]

theorem closeChannel_eq_some {s : CMState} {cid : String}
    {ch : PaymentChannel} (hc : lookupChannel s cid = some ch)
    (byReceiver : Bool) (deadline : Nat) :
    closeChannel s cid byReceiver deadline
      = if ch.state = .Settled then .error .InvalidParameters
        else if byReceiver then
          .ok { s with
            channels :=
              updateChannel s.channels cid
                (fun c => { c with state := .Settling,
                                   settlementDeadline := some deadline }) }
        else
          .ok { s with
            channels :=
              updateChannel s.channels cid
                (fun c => { c with state := .Settled }) } := by
  unfold closeChannel
  rw [hc]

/-! ## The channel invariant is established and preserved -/

theorem mem_updateChannel {l : List PaymentChannel} {cid : String}
    {f : PaymentChannel → PaymentChannel} {c : PaymentChannel}
    (h : c ∈ updateChannel l cid f) :
    ∃ c0 ∈ l, c = if c0.channelId = cid then f c0 else c0 := by
  simp only [updateChannel, List.mem_map] at h
  obtain ⟨c0, hc0, heq⟩ := h
  exact ⟨c0, hc0, heq.symm⟩

theorem mem_updateChannel_of_mem {l : List PaymentChannel} {cid : String}
    {f : PaymentChannel → PaymentChannel} {c : PaymentChannel} (h : c ∈ l) :
    (if c.channelId = cid then f c else c) ∈ updateChannel l cid f :=
  List.mem_map_of_mem _ h

theorem updateChannel_id_preserving (cid : String)
    (f : PaymentChannel → PaymentChannel)
    (hf : ∀ c, (f c).channelId = c.channelId) (c : PaymentChannel) :
    (if c.channelId = cid then f c else c).channelId = c.channelId := by
  split
  · exact hf c
  · rfl

theorem pairwise_updateChannel {l : List PaymentChannel} {cid : String}
    {f : PaymentChannel → PaymentChannel}
    (hf : ∀ c, (f c).channelId = c.channelId)
    (h : l.Pairwise fun a b => a.channelId ≠ b.channelId) :
    (updateChannel l cid f).Pairwise fun a b => a.channelId ≠ b.channelId := by
  refine List.Pairwise.map _ ?_ h
  intro a b hab
  rw [updateChannel_id_preserving cid f hf a, updateChannel_id_preserving cid f hf b]
  exact hab

theorem channels_unique {l : List PaymentChannel}
    (h4 : l.Pairwise fun a b => a.channelId ≠ b.channelId)
    {c d : PaymentChannel} (hc : c ∈ l) (hd : d ∈ l)
    (hid : c.channelId = d.channelId) : c = d := by
  by_cases hcd : c = d
  · exact hcd
  · exact absurd hid
      (List.Pairwise.forall (by intro x y hxy; exact hxy.symm) h4 hc hd hcd)

theorem Inv_updateChannel_mono {s : CMState} {cid : String}
    {f : PaymentChannel → PaymentChannel}
    (hid : ∀ c, (f c).channelId = c.channelId)
    (hsp : ∀ c, (f c).spent = c.spent)
    (hdep : ∀ c, c.deposited ≤ (f c).deposited)
    (hInv : Inv s) :
    Inv { s with channels := updateChannel s.channels cid f } := by
  obtain ⟨h1, h2, h3, h4⟩ := hInv
  refine ⟨?_, ?_, ?_, pairwise_updateChannel hid h4⟩
  · intro ch hch
    obtain ⟨c0, hc0, heq⟩ := mem_updateChannel hch
    subst heq
    obtain ⟨ha, hb⟩ := h1 c0 hc0
    by_cases hcc : c0.channelId = cid
    · rw [if_pos hcc]
      exact ⟨by rw [hsp c0]; exact ha,
        by rw [hsp c0]; exact le_trans hb (hdep c0)⟩
    · rw [if_neg hcc]
      exact ⟨ha, hb⟩
  · intro p hp ch hch hpid
    obtain ⟨c0, hc0, heq⟩ := mem_updateChannel hch
    subst heq
    by_cases hcc : c0.channelId = cid
    · rw [if_pos hcc] at hpid ⊢
      have hpid' : p.channelId = c0.channelId := by
        rw [← hid c0]
        exact hpid
      exact le_trans (h2 p hp c0 hc0 hpid') (hdep c0)
    · rw [if_neg hcc] at hpid ⊢
      exact h2 p hp c0 hc0 hpid
  · intro p hp
    obtain ⟨c0, hc0, hcid⟩ := h3 p hp
    refine ⟨_, mem_updateChannel_of_mem hc0, ?_⟩
    rw [updateChannel_id_preserving cid f hid c0]
    exact hcid

theorem lookupChannel_eq_none_forall {s : CMState} {cid : String}
    (h : lookupChannel s cid = none) :
    ∀ c ∈ s.channels, c.channelId ≠ cid := by
  intro c hc
  have := List.find?_eq_none.mp h c hc
  simpa using this

theorem Inv_step {s : CMState} (hInv : Inv s) (op : Op) : Inv (step s op) := by
  obtain ⟨h1, h2, h3, h4⟩ := hInv
  cases op with
  | openOp a b i v cid =>
    simp only [step]
    rcases openChannel_cases s a b i v cid with
      ⟨e, he⟩ | ⟨hv, hi0, hiv, hfresh, hok⟩
    · rw [he]
      exact ⟨h1, h2, h3, h4⟩
    · rw [hok]
      have hfr := lookupChannel_eq_none_forall hfresh
      show Inv { s with
        channels := s.channels ++ [⟨cid, a, b, v, i, .Open, none⟩] }
      refine ⟨?_, ?_, ?_, ?_⟩
      · intro ch hch
        rcases List.mem_append.mp hch with h | h
        · exact h1 ch h
        · simp only [List.mem_singleton] at h
          subst h
          exact ⟨hi0, hiv⟩
      · intro p hp ch hch hpid
        rcases List.mem_append.mp hch with h | h
        · exact h2 p hp ch h hpid
        · simp only [List.mem_singleton] at h
          subst h
          obtain ⟨c0, hc0, hc0id⟩ := h3 p hp
          exact absurd (hc0id.trans hpid) (hfr c0 hc0)
      · intro p hp
        obtain ⟨c0, hc0, hcid⟩ := h3 p hp
        exact ⟨c0, List.mem_append_left _ hc0, hcid⟩
      · rw [List.pairwise_append]
        refine ⟨h4, by simp, ?_⟩
        intro x hx y hy
        simp only [List.mem_singleton] at hy
        subst hy
        exact hfr x hx
  | depositOp cid v =>
    simp only [step]
    by_cases hv : v ≤ 0
    · rw [deposit_eq_nonpos hv]
      exact ⟨h1, h2, h3, h4⟩
    · rcases hc : lookupChannel s cid with _ | ch
      · rw [deposit_eq_none hv hc]
        exact ⟨h1, h2, h3, h4⟩
      · rw [deposit_eq_some hv hc]
        by_cases hst : ch.state ≠ .Open
        · rw [if_pos hst]
          exact ⟨h1, h2, h3, h4⟩
        · rw [if_neg hst]
          show Inv { s with
            channels :=
              updateChannel s.channels cid
                (fun c => { c with deposited := c.deposited + v }) }
          refine Inv_updateChannel_mono (fun c => rfl) (fun c => rfl)
            (fun c => ?_) ⟨h1, h2, h3, h4⟩
          show c.deposited ≤ c.deposited + v
          omega
  | mintOp cid inc meta =>
    simp only [step]
    rcases hc : lookupChannel s cid with _ | ch
    · rw [nextPayment_eq_none hc inc meta]
      exact ⟨h1, h2, h3, h4⟩
    · have he := nextPayment_eq hc inc meta
      by_cases hd : ch.deposited < ch.spent + inc
      · rw [he, if_pos hd]
        exact ⟨h1, h2, h3, h4⟩
      · rw [he, if_neg hd]
        obtain ⟨hm, hmid⟩ := lookupChannel_mem hc
        show Inv { s with
          minted := s.minted
            ++ [⟨cid, ch.sender, ch.receiver, ch.deposited,
                  ch.spent + inc, meta, "sig"⟩] }
        refine ⟨h1, ?_, ?_, h4⟩
        · intro p hp c hcmem hpid
          rcases List.mem_append.mp hp with h | h
          · exact h2 p h c hcmem hpid
          · simp only [List.mem_singleton] at h
            subst h
            have hcch : c = ch := by
              refine channels_unique h4 hcmem hm ?_
              rw [hmid]
              exact hpid.symm
            rw [hcch]
            show ch.spent + inc ≤ ch.deposited
            omega
        · intro p hp
          rcases List.mem_append.mp hp with h | h
          · exact h3 p h
          · simp only [List.mem_singleton] at h
            subst h
            exact ⟨ch, hm, hmid⟩
  | spendOp p =>
    simp only [step]
    by_cases hm : p ∈ s.minted
    · rw [if_pos hm]
      rcases hc : lookupChannel s p.channelId with _ | ch
      · rw [spendChannel_eq_none hc]
        exact ⟨h1, h2, h3, h4⟩
      · have he := spendChannel_eq hc
        by_cases hle : p.value ≤ ch.spent
        · rw [he, if_pos hle]
          exact ⟨h1, h2, h3, h4⟩
        · rw [he, if_neg hle]
          obtain ⟨hchm, hchid⟩ := lookupChannel_mem hc
          have hpd : p.value ≤ ch.deposited := h2 p hm ch hchm hchid.symm
          obtain ⟨hs0, hsd⟩ := h1 ch hchm
          show Inv { s with
            channels :=
              updateChannel s.channels p.channelId
                (fun c => { c with spent := p.value }) }
          refine ⟨?_, ?_, ?_, pairwise_updateChannel (fun c => rfl) h4⟩
          · intro c hcm
            obtain ⟨c0, hc0, heq⟩ := mem_updateChannel hcm
            subst heq
            by_cases hcc : c0.channelId = p.channelId
            · rw [if_pos hcc]
              have hc0ch : c0 = ch := by
                refine channels_unique h4 hc0 hchm ?_
                rw [hchid]
                exact hcc
              subst hc0ch
              refine ⟨?_, ?_⟩
              · show (0 : Int) ≤ p.value
                omega
              · show p.value ≤ c0.deposited
                omega
            · rw [if_neg hcc]
              exact h1 c0 hc0
          · intro q hq c hcm hqid
            obtain ⟨c0, hc0, heq⟩ := mem_updateChannel hcm
            subst heq
            by_cases hcc : c0.channelId = p.channelId
            · rw [if_pos hcc] at hqid ⊢
              have hqid' : q.channelId = c0.channelId := hqid
              show q.value ≤ c0.deposited
              exact h2 q hq c0 hc0 hqid'
            · rw [if_neg hcc] at hqid ⊢
              exact h2 q hq c0 hc0 hqid
          · intro q hq
            obtain ⟨c0, hc0, hcid0⟩ := h3 q hq
            refine ⟨_, mem_updateChannel_of_mem hc0, ?_⟩
            rw [updateChannel_id_preserving p.channelId
              (fun c => { c with spent := p.value }) (fun c => rfl) c0]
            exact hcid0
    · rw [if_neg hm]
      exact ⟨h1, h2, h3, h4⟩
  | closeOp cid byReceiver deadline =>
    simp only [step]
    rcases hc : lookupChannel s cid with _ | ch
    · rw [closeChannel_eq_none hc byReceiver deadline]
      exact ⟨h1, h2, h3, h4⟩
    · have he := closeChannel_eq_some hc byReceiver deadline
      by_cases hst : ch.state = .Settled
      · rw [he, if_pos hst]
        exact ⟨h1, h2, h3, h4⟩
      · by_cases hbr : byReceiver = true
        · rw [he, if_neg hst, if_pos hbr]
          show Inv { s with
            channels :=
              updateChannel s.channels cid
                (fun c => { c with state := .Settling,
                                   settlementDeadline := some deadline }) }
          exact Inv_updateChannel_mono (fun c => rfl) (fun c => rfl)
            (fun c => le_refl _) ⟨h1, h2, h3, h4⟩
        · rw [he, if_neg hst, if_neg hbr]
          show Inv { s with
            channels :=
              updateChannel s.channels cid
                (fun c => { c with state := .Settled }) }
          exact Inv_updateChannel_mono (fun c => rfl) (fun c => rfl)
            (fun c => le_refl _) ⟨h1, h2, h3, h4⟩

theorem Inv_empty : Inv CMState.empty := by
  refine ⟨?_, ?_, ?_, ?_⟩ <;> simp [CMState.empty]

theorem Inv_foldl (ops : List Op) :
    ∀ s, Inv s → Inv (List.foldl step s ops) := by
  induction ops with
  | nil => exact fun s h => h
  | cons op ops ih => exact fun s h => ih _ (Inv_step h op)

theorem Inv_runOps (ops : List Op) : Inv (runOps ops) :=
  Inv_foldl ops CMState.empty Inv_empty

theorem step_spent_mono {s : CMState} (hInv : Inv s) (op : Op) :
    ∀ ch ∈ s.channels, ∃ ch' ∈ (step s op).channels,
      ch'.channelId = ch.channelId ∧ ch.spent ≤ ch'.spent := by
  obtain ⟨h1, h2, h3, h4⟩ := hInv
  intro ch hch
  cases op with
  | openOp a b i v cid =>
    simp only [step]
    rcases openChannel_cases s a b i v cid with ⟨e, he⟩ | ⟨-, -, -, -, hok⟩
    · rw [he]
      exact ⟨ch, hch, rfl, le_refl _⟩
    · rw [hok]
      exact ⟨ch, List.mem_append_left _ hch, rfl, le_refl _⟩
  | depositOp cid v =>
    simp only [step]
    by_cases hv : v ≤ 0
    · rw [deposit_eq_nonpos hv]
      exact ⟨ch, hch, rfl, le_refl _⟩
    · rcases hc : lookupChannel s cid with _ | c
      · rw [deposit_eq_none hv hc]
        exact ⟨ch, hch, rfl, le_refl _⟩
      · rw [deposit_eq_some hv hc]
        by_cases hst : c.state ≠ .Open
        · rw [if_pos hst]
          exact ⟨ch, hch, rfl, le_refl _⟩
        · rw [if_neg hst]
          refine ⟨_, mem_updateChannel_of_mem hch,
            updateChannel_id_preserving cid
              (fun c => { c with deposited := c.deposited + v })
              (fun x => rfl) ch, ?_⟩
          split
          · exact le_refl _
          · exact le_refl _
  | mintOp cid inc meta =>
    simp only [step]
    have hchan :
        (applyExcept s ((nextPayment s cid inc meta).map (·.2))).channels
          = s.channels := by
      rcases hnp : nextPayment s cid inc meta with e | ⟨p, s'⟩
      · rfl
      · exact nextPayment_ok_channels hnp
    rw [hchan]
    exact ⟨ch, hch, rfl, le_refl _⟩
  | spendOp p =>
    simp only [step]
    by_cases hm : p ∈ s.minted
    · rw [if_pos hm]
      rcases hc : lookupChannel s p.channelId with _ | c
      · rw [spendChannel_eq_none hc]
        exact ⟨ch, hch, rfl, le_refl _⟩
      · have he := spendChannel_eq hc
        by_cases hle : p.value ≤ c.spent
        · rw [he, if_pos hle]
          exact ⟨ch, hch, rfl, le_refl _⟩
        · rw [he, if_neg hle]
          obtain ⟨hcm, hcid⟩ := lookupChannel_mem hc
          refine ⟨_, mem_updateChannel_of_mem hch,
            updateChannel_id_preserving p.channelId
              (fun c => { c with spent := p.value }) (fun x => rfl) ch, ?_⟩
          by_cases hcc : ch.channelId = p.channelId
          · rw [if_pos hcc]
            have hchc : ch = c := by
              refine channels_unique h4 hch hcm ?_
              rw [hcid]
              exact hcc
            subst hchc
            show ch.spent ≤ p.value
            omega
          · rw [if_neg hcc]
    · rw [if_neg hm]
      exact ⟨ch, hch, rfl, le_refl _⟩
  | closeOp cid byReceiver deadline =>
    simp only [step]
    rcases hc : lookupChannel s cid with _ | c
    · rw [closeChannel_eq_none hc byReceiver deadline]
      exact ⟨ch, hch, rfl, le_refl _⟩
    · have he := closeChannel_eq_some hc byReceiver deadline
      by_cases hst : c.state = .Settled
      · rw [he, if_pos hst]
        exact ⟨ch, hch, rfl, le_refl _⟩
      · by_cases hbr : byReceiver = true
        · rw [he, if_neg hst, if_pos hbr]
          refine ⟨_, mem_updateChannel_of_mem hch,
            updateChannel_id_preserving cid
              (fun c => { c with state := .Settling,
                                 settlementDeadline := some deadline })
              (fun x => rfl) ch, ?_⟩
          split
          · exact le_refl _
          · exact le_refl _
        · rw [he, if_neg hst, if_neg hbr]
          refine ⟨_, mem_updateChannel_of_mem hch,
            updateChannel_id_preserving cid
              (fun c => { c with state := .Settled })
              (fun x => rfl) ch, ?_⟩
          split
          · exact le_refl _
          · exact le_refl _

/-! ## Decimal codec lemmas (for the serde round-trip) -/

theorem charDigit_digitChar : ∀ d < 10, charDigit (digitChar d) = some d := by
  decide

theorem digitChar_ne_neg : ∀ d < 10, digitChar d ≠ '-' := by decide

theorem decDigits_map_digitChar (ds : List Nat) (h : ∀ d ∈ ds, d < 10) :
    decDigits (ds.map digitChar) = some ds := by
  induction ds with
  | nil => rfl
  | cons d ds ih =>
    have hd : d < 10 := h d (by simp)
    have hds : ∀ x ∈ ds, x < 10 := fun x hx => h x (by simp [hx])
    simp [decDigits, charDigit_digitChar d hd, ih hds]

theorem listToNat_natToDec (n : Nat) : listToNat (natToDec n).data = some n := by
  by_cases hn : n = 0
  · subst hn; rfl
  · have hdig : ∀ d ∈ (Nat.digits 10 n).reverse, d < 10 := by
      intro d hd
      exact Nat.digits_lt_base (by norm_num) (List.mem_reverse.mp hd)
    have hne : Nat.digits 10 n ≠ [] := Nat.digits_ne_nil_iff_ne_zero.mpr hn
    have hdata : (natToDec n).data = (Nat.digits 10 n).reverse.map digitChar := by
      rw [natToDec, if_neg hn]
      show ((Nat.digits 10 n).map digitChar).reverse = _
      rw [← List.map_reverse]
    rw [hdata]
    have hnil : (Nat.digits 10 n).reverse.map digitChar ≠ [] := by
      simp only [ne_eq, List.map_eq_nil_iff, List.reverse_eq_nil_iff]
      exact hne
    unfold listToNat
    rw [if_neg hnil, decDigits_map_digitChar _ hdig]
    simp [Nat.ofDigits_digits]

theorem natToDec_head_not_neg (n : Nat) {c : Char} {cs : List Char}
    (h : (natToDec n).data = c :: cs) : c ≠ '-' := by
  have h1 := listToNat_natToDec n
  rw [h] at h1
  unfold listToNat at h1
  rw [if_neg (by simp)] at h1
  intro hc
  subst hc
  have : charDigit '-' = none := by decide
  simp [decDigits, this] at h1

theorem decToInt_intToDec (i : Int) : decToInt (intToDec i) = some i := by
  by_cases hi : i < 0
  · have hdata : (intToDec i).data = '-' :: (natToDec i.natAbs).data := by
      simp [intToDec, hi]
    unfold decToInt
    rw [hdata]
    simp only [listToInt]
    rw [if_pos trivial, listToNat_natToDec]
    simp only [Option.map_some']
    congr 1
    omega
  · have hdata : (intToDec i).data = (natToDec i.natAbs).data := by
      simp [intToDec, hi]
    unfold decToInt
    rw [hdata]
    rcases hd : (natToDec i.natAbs).data with _ | ⟨c, cs⟩
    · exfalso
      have h1 := listToNat_natToDec i.natAbs
      rw [hd] at h1
      simp [listToNat] at h1
    · have hc : c ≠ '-' := natToDec_head_not_neg _ hd
      simp only [listToInt]
      rw [if_neg hc]
      rw [← hd, listToNat_natToDec]
      simp only [Option.map_some']
      congr 1
      omega

/-! ## Claims -/

/-- C8: deserializing the serialized encoding of any `Payment` — covering
channelId, sender, receiver, channelValue, value, meta and signature —
yields a `Payment` logically identical to the original. -/
theorem payment_serde_roundtrip (p : Payment) :
    PaymentSerde.deserialize (PaymentSerde.serialize p) = some p := by
  unfold PaymentSerde.serialize PaymentSerde.deserialize
  rw [decToInt_intToDec, decToInt_intToDec]

/-- C7: a `buy` whose options lack a gateway (absent or empty) fails with
the missing-gateway error and leaves the channel-manager state untouched:
no channel is looked up or opened, no payment is minted, nothing changes. -/
theorem buy_missing_gateway (m : Facade) (s : CMState) (o : BuyOptions)
    (doPay : Payment → String → Option String → Except Err String)
    (freshCid : String) (h : hasGateway o = false) :
    m.buy s o doPay freshCid = (.error .MissingGateway, s) := by
  unfold Facade.buy
  rcases hg : o.gateway with _ | g
  · rfl
  · have : g = "" := by
      have := h
      unfold hasGateway at this
      rw [hg] at this
      simpa using this
    subst this
    rfl

/-- Witness for C7 at a concrete input with the gateway absent. -/
theorem buy_missing_gateway_witness :
    Facade.buy ⟨"alice"⟩ CMState.empty ⟨"bob", 100, none, none, none⟩
        (fun _ _ _ => .ok "tok") "c1"
      = (.error .MissingGateway, CMState.empty) :=
  buy_missing_gateway ⟨"alice"⟩ CMState.empty ⟨"bob", 100, none, none, none⟩
    (fun _ _ _ => .ok "tok") "c1" rfl

/-- C10: the facade's `open` always delegates to `openChannel` with
`initialSpent = 0` and with the sender fixed to the facade's own account,
so a successfully opened channel starts with `spent = 0`, belongs to the
facade's account, holds the requested deposit, and is `Open`. -/
theorem openChannelF_spec (m : Facade) (s : CMState) (receiver : String)
    (value : Int) (cid : String) :
    m.openChannelF s receiver value cid
        = openChannel s m.account receiver 0 value cid
      ∧ ∀ ch s', m.openChannelF s receiver value cid = .ok (ch, s') →
          ch.sender = m.account ∧ ch.spent = 0 ∧ ch.deposited = value
            ∧ ch.state = .Open := by
  refine ⟨rfl, ?_⟩
  intro ch s' h
  unfold Facade.openChannelF openChannel at h
  split at h
  · exact absurd h (by simp)
  · split at h
    · exact absurd h (by simp)
    · split at h
      · exact absurd h (by simp)
      · have := h
        simp only [Except.ok.injEq, Prod.mk.injEq] at this
        obtain ⟨hch, -⟩ := this
        subst hch
        exact ⟨rfl, rfl, rfl, rfl⟩

/-- Witness for C10 at a concrete opened channel. -/
theorem openChannelF_spec_witness :
    (⟨"c9", "alice", "bob", 1000, 0, .Open, none⟩ : PaymentChannel).sender
        = (⟨"alice"⟩ : Facade).account
      ∧ (⟨"c9", "alice", "bob", 1000, 0, .Open, none⟩ : PaymentChannel).spent = 0
      ∧ (⟨"c9", "alice", "bob", 1000, 0, .Open, none⟩ : PaymentChannel).deposited
          = 1000
      ∧ (⟨"c9", "alice", "bob", 1000, 0, .Open, none⟩ : PaymentChannel).state
          = .Open :=
  (openChannelF_spec ⟨"alice"⟩ CMState.empty "bob" 1000 "c9").2
    ⟨"c9", "alice", "bob", 1000, 0, .Open, none⟩
    ⟨[⟨"c9", "alice", "bob", 1000, 0, .Open, none⟩], []⟩ rfl

/-- C2: `spendChannel(payment)` succeeds and advances the channel's spent
to `payment.value` exactly when `payment.value` strictly exceeds the
committed spent; when `payment.value ≤ spent` it fails with `StalePayment`
and the caller's state is unchanged. -/
theorem spendChannel_fresh_or_stale (s : CMState) (p : Payment)
    (ch : PaymentChannel) (hc : lookupChannel s p.channelId = some ch) :
    (ch.spent < p.value →
      ∃ s', spendChannel s p = .ok s'
        ∧ lookupChannel s' p.channelId = some { ch with spent := p.value }
        ∧ s'.minted = s.minted)
    ∧ (p.value ≤ ch.spent →
      spendChannel s p = .error .StalePayment
        ∧ applyExcept s (spendChannel s p) = s) := by
  have he := spendChannel_eq hc
  constructor
  · intro hlt
    rw [if_neg (by omega)] at he
    exact ⟨_, he, (spendChannel_ok_lookup he hc).1, rfl⟩
  · intro hle
    rw [if_pos hle] at he
    refine ⟨he, ?_⟩
    rw [he]
    rfl

/-- Witness for C2: the spec scenario — committing value 250 against a
channel whose spent is 300 is rejected as stale and changes nothing. -/
theorem spendChannel_fresh_or_stale_witness :
    spendChannel ⟨[⟨"c1", "a", "b", 1000, 300, .Open, none⟩], []⟩
        ⟨"c1", "a", "b", 1000, 250, "", "sig"⟩
      = .error .StalePayment
    ∧ applyExcept ⟨[⟨"c1", "a", "b", 1000, 300, .Open, none⟩], []⟩
        (spendChannel ⟨[⟨"c1", "a", "b", 1000, 300, .Open, none⟩], []⟩
          ⟨"c1", "a", "b", 1000, 250, "", "sig"⟩)
      = ⟨[⟨"c1", "a", "b", 1000, 300, .Open, none⟩], []⟩ :=
  (spendChannel_fresh_or_stale ⟨[⟨"c1", "a", "b", 1000, 300, .Open, none⟩], []⟩
    ⟨"c1", "a", "b", 1000, 250, "", "sig"⟩
    ⟨"c1", "a", "b", 1000, 300, .Open, none⟩ rfl).2 (by decide)

/-- C4: `nextPayment(channelId, inc, meta)` mints a payment whose
cumulative value is the channel's last committed spent plus the increment
and mutates no recorded channel state; it fails with `ChannelNotFound` for
an unknown id and with `InsufficientChannelValue` when `spent + inc` would
exceed `deposited`. -/
theorem nextPayment_spec (s : CMState) (cid : String) (inc : Int)
    (meta : String) :
    (lookupChannel s cid = none →
      nextPayment s cid inc meta = .error .ChannelNotFound)
    ∧ ∀ ch, lookupChannel s cid = some ch →
        (ch.deposited < ch.spent + inc →
          nextPayment s cid inc meta = .error .InsufficientChannelValue)
        ∧ (ch.spent + inc ≤ ch.deposited →
          ∃ p s', nextPayment s cid inc meta = .ok (p, s')
            ∧ p.value = ch.spent + inc
            ∧ s'.channels = s.channels
            ∧ s'.minted = s.minted ++ [p]) := by
  constructor
  · intro h
    unfold nextPayment
    rw [h]
  · intro ch hch
    have he := nextPayment_eq hch inc meta
    constructor
    · intro hlt
      rw [he, if_pos hlt]
    · intro hle
      rw [he, if_neg (by omega)]
      exact ⟨_, _, rfl, rfl, rfl, rfl⟩

/-- Witness for C4: minting an increment of 100 on an open channel with
spent 0 and deposit 1000 yields a payment of value 100 and leaves the
channels untouched. -/
theorem nextPayment_spec_witness :
    ∃ p s', nextPayment ⟨[⟨"c1", "a", "b", 1000, 0, .Open, none⟩], []⟩
        "c1" 100 "" = .ok (p, s')
      ∧ p.value = (⟨"c1", "a", "b", 1000, 0, .Open, none⟩ : PaymentChannel).spent + 100
      ∧ s'.channels = (⟨[⟨"c1", "a", "b", 1000, 0, .Open, none⟩], []⟩ : CMState).channels
      ∧ s'.minted = (⟨[⟨"c1", "a", "b", 1000, 0, .Open, none⟩], []⟩ : CMState).minted ++ [p] :=
  ((nextPayment_spec ⟨[⟨"c1", "a", "b", 1000, 0, .Open, none⟩], []⟩ "c1" 100 "").2
    ⟨"c1", "a", "b", 1000, 0, .Open, none⟩ rfl).2 (by decide)

/-- C5: `requireOpenChannel(sender, receiver, price)` returns an existing
`Open` channel between the pair whose `deposited - spent ≥ price` when its
search finds one, and otherwise — given a positive price and a fresh id —
opens and returns a new channel whose deposit is `price × 10`. -/
theorem requireOpenChannel_spec (s : CMState) (sender receiver : String)
    (price : Int) (freshCid : String) :
    (∀ ch, s.channels.find? (qualifies sender receiver price) = some ch →
      requireOpenChannel s sender receiver price freshCid = .ok (ch, s)
        ∧ ch ∈ s.channels ∧ ch.sender = sender ∧ ch.receiver = receiver
        ∧ ch.state = .Open ∧ price ≤ ch.deposited - ch.spent)
    ∧ ((∀ ch ∈ s.channels, qualifies sender receiver price ch = false) →
        0 < price → lookupChannel s freshCid = none →
        ∃ ch, requireOpenChannel s sender receiver price freshCid
            = .ok (ch, { s with channels := s.channels ++ [ch] })
          ∧ ch.deposited = price * 10 ∧ ch.spent = 0 ∧ ch.sender = sender
          ∧ ch.receiver = receiver ∧ ch.state = .Open) := by
  constructor
  · intro ch hfind
    have hq := List.find?_some hfind
    unfold qualifies at hq
    simp only [Bool.and_eq_true, beq_iff_eq, decide_eq_true_eq] at hq
    refine ⟨?_, List.mem_of_find?_eq_some hfind, hq.1.1.1, hq.1.1.2, hq.1.2, hq.2⟩
    unfold requireOpenChannel
    rw [hfind]
  · intro hnoq hpos hfresh
    have hnone : s.channels.find? (qualifies sender receiver price) = none := by
      rw [List.find?_eq_none]
      intro x hx
      rw [hnoq x hx]
      simp
    unfold requireOpenChannel
    rw [hnone]
    unfold openChannel
    rw [if_neg (by omega), if_neg (by omega), if_neg (by rw [hfresh]; simp)]
    exact ⟨_, rfl, rfl, rfl, rfl, rfl, rfl⟩

/-- Witness for C5: from the empty state with price 10, a new channel with
deposit 100 is opened and returned. -/
theorem requireOpenChannel_spec_witness :
    ∃ ch, requireOpenChannel CMState.empty "a" "b" 10 "c1"
        = .ok (ch, { CMState.empty with
            channels := CMState.empty.channels ++ [ch] })
      ∧ ch.deposited = 10 * 10 ∧ ch.spent = 0 ∧ ch.sender = "a"
      ∧ ch.receiver = "b" ∧ ch.state = .Open :=
  (requireOpenChannel_spec CMState.empty "a" "b" 10 "c1").2
    (by intro ch h; simp [CMState.empty] at h) (by decide) rfl

/-- C1: in every state reachable by any sequence of channel-manager
operations (openChannel, deposit, nextPayment, spendChannel,
closeChannel), every tracked channel satisfies `0 ≤ spent ≤ deposited`,
and `spent` is non-decreasing: one further operation of any kind leaves
every tracked channel with a successor (same channelId) whose spent is at
least as large. -/
theorem channel_invariant_and_monotone (ops : List Op) :
    (∀ ch ∈ (runOps ops).channels, 0 ≤ ch.spent ∧ ch.spent ≤ ch.deposited)
    ∧ ∀ op, ∀ ch ∈ (runOps ops).channels,
        ∃ ch' ∈ (step (runOps ops) op).channels,
          ch'.channelId = ch.channelId ∧ ch.spent ≤ ch'.spent :=
  ⟨(Inv_runOps ops).1, fun op => step_spent_mono (Inv_runOps ops) op⟩

/-- Witness for C1 at a concrete trace: open with deposit 1000, mint 300,
commit; the resulting channel has `0 ≤ 300 ≤ 1000`, and a further deposit
keeps a channel with the same id and at least as much spent. -/
theorem channel_invariant_and_monotone_witness :
    ((0 : Int) ≤ (⟨"c1", "a", "b", 1000, 300, .Open, none⟩ : PaymentChannel).spent
      ∧ (⟨"c1", "a", "b", 1000, 300, .Open, none⟩ : PaymentChannel).spent
        ≤ (⟨"c1", "a", "b", 1000, 300, .Open, none⟩ : PaymentChannel).deposited)
    ∧ ∃ ch' ∈ (step
          (runOps [Op.openOp "a" "b" 0 1000 "c1", Op.mintOp "c1" 300 "",
            Op.spendOp ⟨"c1", "a", "b", 1000, 300, "", "sig"⟩])
          (Op.depositOp "c1" 500)).channels,
        ch'.channelId
            = (⟨"c1", "a", "b", 1000, 300, .Open, none⟩ : PaymentChannel).channelId
          ∧ (⟨"c1", "a", "b", 1000, 300, .Open, none⟩ : PaymentChannel).spent
            ≤ ch'.spent :=
  ⟨(channel_invariant_and_monotone
      [Op.openOp "a" "b" 0 1000 "c1", Op.mintOp "c1" 300 "",
        Op.spendOp ⟨"c1", "a", "b", 1000, 300, "", "sig"⟩]).1
      ⟨"c1", "a", "b", 1000, 300, .Open, none⟩ (by decide),
    (channel_invariant_and_monotone
      [Op.openOp "a" "b" 0 1000 "c1", Op.mintOp "c1" 300 "",
        Op.spendOp ⟨"c1", "a", "b", 1000, 300, "", "sig"⟩]).2
      (Op.depositOp "c1" 500)
      ⟨"c1", "a", "b", 1000, 300, .Open, none⟩ (by decide)⟩

/-- C3: with a gateway present, `buy` is exactly the sequence
require-open-channel and mint (via `mintPayment`), then `doPayment` to the
gateway, then `spendChannel`: any failing step's error is returned to the
caller unchanged with the spend not yet committed (every channel of the
starting state keeps its `spent` through minting, so a delivery failure
leaves no channel advanced past what was delivered), and on success `buy`
returns the delivery token together with the payment's channelId and the
state in which the spend was committed. -/
theorem buy_sequence_spec (m : Facade) (s : CMState) (o : BuyOptions)
    (doPay : Payment → String → Option String → Except Err String)
    (freshCid g : String) (hg : o.gateway = some g) (hne : g ≠ "") :
    (∀ e s1, m.mintPayment s o freshCid = (.error e, s1) →
      m.buy s o doPay freshCid = (.error e, s1))
    ∧ ∀ p s1, m.mintPayment s o freshCid = (.ok p, s1) →
        spentPreserved s s1
        ∧ (∀ e, doPay p g o.purchaseMeta = .error e →
            m.buy s o doPay freshCid = (.error e, s1))
        ∧ ∀ tok, doPay p g o.purchaseMeta = .ok tok →
            (∀ e, spendChannel s1 p = .error e →
              m.buy s o doPay freshCid = (.error e, s1))
            ∧ ∀ s2, spendChannel s1 p = .ok s2 →
                m.buy s o doPay freshCid = (.ok ⟨tok, p.channelId⟩, s2) := by
  constructor
  · intro e s1 hmint
    exact buy_eq_mint_error hg hne hmint
  · intro p s1 hmint
    refine ⟨?_, ?_, ?_⟩
    · have hps := mintPayment_spentPreserved m s o freshCid
      rw [hmint] at hps
      exact hps
    · intro e hdp
      rw [buy_eq_mint_ok hg hne hmint, hdp]
    · intro tok hdp
      constructor
      · intro e hsp
        rw [buy_eq_mint_ok hg hne hmint, hdp, hsp]
      · intro s2 hsp
        rw [buy_eq_mint_ok hg hne hmint, hdp, hsp]

/-- Witness for C3: a concrete successful purchase from the empty state
returns the delivery token and the payment's channel id, with the spend
committed. -/
theorem buy_sequence_spec_witness :
    Facade.buy ⟨"alice"⟩ CMState.empty ⟨"bob", 100, some "gw", none, none⟩
        (fun _ _ _ => .ok "tok") "c1"
      = (.ok ⟨"tok", "c1"⟩,
          ⟨[⟨"c1", "alice", "bob", 1000, 100, .Open, none⟩],
            [⟨"c1", "alice", "bob", 1000, 100, "", "sig"⟩]⟩) :=
  (((buy_sequence_spec ⟨"alice"⟩ CMState.empty
      ⟨"bob", 100, some "gw", none, none⟩ (fun _ _ _ => .ok "tok") "c1" "gw"
      rfl (by decide)).2
    ⟨"c1", "alice", "bob", 1000, 100, "", "sig"⟩
    ⟨[⟨"c1", "alice", "bob", 1000, 0, .Open, none⟩],
      [⟨"c1", "alice", "bob", 1000, 100, "", "sig"⟩]⟩ rfl).2.2 "tok" rfl).2
    ⟨[⟨"c1", "alice", "bob", 1000, 100, .Open, none⟩],
      [⟨"c1", "alice", "bob", 1000, 100, "", "sig"⟩]⟩ rfl

/-- C9: the facade's `payment` operation is gateway-blind — its result is
the same whatever the options' gateway field holds, absent included — and
it immediately commits the minted payment via `spendChannel` with no
delivery step, returning the serialized payment and a state whose channel
has `spent` advanced to the payment's value. -/
theorem payment_commits_without_gateway (m : Facade) (s : CMState)
    (o : BuyOptions) (freshCid : String) :
    (∀ g', m.payment s { o with gateway := g' } freshCid
      = m.payment s o freshCid)
    ∧ ∀ p s1, m.mintPayment s o freshCid = (.ok p, s1) →
        (∀ e, spendChannel s1 p = .error e →
          m.payment s o freshCid = (.error e, s1))
        ∧ ∀ s2, spendChannel s1 p = .ok s2 →
            m.payment s o freshCid = (.ok (PaymentSerde.serialize p), s2)
            ∧ ∀ ch, lookupChannel s1 p.channelId = some ch →
                lookupChannel s2 p.channelId = some { ch with spent := p.value } := by
  constructor
  · intro g'
    cases o
    rfl
  · intro p s1 hmint
    constructor
    · intro e hsp
      rw [payment_eq_mint_ok hmint, hsp]
    · intro s2 hsp
      refine ⟨?_, ?_⟩
      · rw [payment_eq_mint_ok hmint, hsp]
      · intro ch hch
        exact (spendChannel_ok_lookup hsp hch).1

/-- Witness for C9: a concrete `payment` call with no gateway at all still
mints, commits, and returns the serialized payment, advancing spent to
100. -/
theorem payment_commits_without_gateway_witness :
    Facade.payment ⟨"alice"⟩ CMState.empty ⟨"bob", 100, none, none, none⟩ "c1"
        = (.ok (PaymentSerde.serialize
            ⟨"c1", "alice", "bob", 1000, 100, "", "sig"⟩),
          ⟨[⟨"c1", "alice", "bob", 1000, 100, .Open, none⟩],
            [⟨"c1", "alice", "bob", 1000, 100, "", "sig"⟩]⟩)
    ∧ ∀ ch, lookupChannel
          ⟨[⟨"c1", "alice", "bob", 1000, 0, .Open, none⟩],
            [⟨"c1", "alice", "bob", 1000, 100, "", "sig"⟩]⟩ "c1" = some ch →
        lookupChannel
          ⟨[⟨"c1", "alice", "bob", 1000, 100, .Open, none⟩],
            [⟨"c1", "alice", "bob", 1000, 100, "", "sig"⟩]⟩ "c1"
          = some { ch with spent := 100 } :=
  ((payment_commits_without_gateway ⟨"alice"⟩ CMState.empty
      ⟨"bob", 100, none, none, none⟩ "c1").2
    ⟨"c1", "alice", "bob", 1000, 100, "", "sig"⟩
    ⟨[⟨"c1", "alice", "bob", 1000, 0, .Open, none⟩],
      [⟨"c1", "alice", "bob", 1000, 100, "", "sig"⟩]⟩ rfl).2
    ⟨[⟨"c1", "alice", "bob", 1000, 100, .Open, none⟩],
      [⟨"c1", "alice", "bob", 1000, 100, "", "sig"⟩]⟩ rfl

/-- C6: under the spec's per-(sender, receiver) serialization guarantee,
two `requireOpenChannel` invocations for the same sender, receiver and
price — modelled as running atomically one after the other, in either
order the serialization may pick — open at most one new channel between
them, whatever the starting state. -/
theorem requireOpenChannel_twice_opens_at_most_one (s : CMState)
    (sender receiver : String) (price : Int) (cid1 cid2 : String) :
    (requireOpenChannelState
        (requireOpenChannelState s sender receiver price cid1)
        sender receiver price cid2).channels.length
      ≤ s.channels.length + 1 := by
  rcases requireOpenChannelState_cases s sender receiver price cid1 with
    h1 | ⟨ch1, hq1, h1⟩
  · rw [h1]
    exact requireOpenChannelState_length s sender receiver price cid2
  · rw [h1]
    rw [requireOpenChannelState_of_qualifying _ sender receiver price cid2
      ⟨ch1, by simp, hq1⟩]
    simp

end Machinomy
